import Mathlib

/-!
Verification development for the Datadog logs sink
(`src/sinks/datadog/logs.rs`).

The sink encodes log events into per-partition payload fragments keyed by a
Datadog API key, batches fragments per key, builds HTTP requests (optionally
gzip-compressed), and exposes a one-shot healthcheck.

Modelling conventions:
* byte sequences (`Vec<u8>`, `Bytes`) are `List Nat`;
* strings are Lean `String`; `strBytes` maps a string to its code points
  (a faithful stand-in for UTF-8 for the properties proved here);
* JSON values (`serde_json::Value`) are the inductive `Json` below, with
  objects as association lists;
* external crates (serde_json, flate2) and repository code that lives
  outside this file (`log_schema`, `EncodingConfig::apply_rules`,
  `encode_event`, the partitioned batch sink) are modelled where needed,
  each with a doc comment saying what it stands for.
-/

/-- JSON values, modelling `serde_json::Value`. Numbers are integers here;
no claim depends on float formatting. Objects are association lists. -/
inductive Json where
  | null : Json
  | bool : Bool → Json
  | num : Int → Json
  | str : String → Json
  | arr : List Json → Json
  | obj : List (String × Json) → Json
deriving Repr

/-- `Value::as_object`: the key/value pairs when the value is an object. -/
def Json.asObject : Json → Option (List (String × Json))
  | Json.obj kvs => some kvs
  | _ => none

/-- `Value::as_str`: the string when the value is a string. -/
def Json.asString : Json → Option String
  | Json.str s => some s
  | _ => none

/-- `Map::get` on a JSON object's association list. -/
def jsonGet (kvs : List (String × Json)) (k : String) : Option Json :=
  (kvs.find? (fun p => p.1 == k)).map Prod.snd

/-- A string as a byte sequence (code points; ASCII-faithful). -/
def strBytes (s : String) : List Nat :=
  s.toList.map Char.toNat

/-- `LogEvent::get`-style lookup on the event's field map. -/
def lookupField (fields : List (String × Json)) (k : String) : Option Json :=
  (fields.find? (fun p => p.1 == k)).map Prod.snd

/-- Removal part of `LogEvent::remove`: the field map without key `k`. -/
def eraseField : List (String × Json) → String → List (String × Json)
  | [], _ => []
  | (k', v') :: rest, k => if k' = k then rest else (k', v') :: eraseField rest k

/-- `LogEvent::insert`: replace the value at `k` in place, or append. -/
def insertField : List (String × Json) → String → Json → List (String × Json)
  | [], k, v => [(k, v)]
  | (k', v') :: rest, k, v =>
      if k' = k then (k, v) :: rest else (k', v') :: insertField rest k v

/-- Modelled from the spec: the global log schema (`log_schema()`, defined in
`config`, outside this file) names the well-known message/timestamp/host
fields of an event. -/
structure LogSchema where
  message_key : String
  timestamp_key : String
  host_key : String
deriving Repr

/-- The default schema keys used by the log schema when unconfigured. -/
def defaultLogSchema : LogSchema :=
  ⟨"message", "timestamp", "host"⟩

/-- Modelled from the spec: the field-projection (encoding) rules applied by
`EncodingConfig::apply_rules` (`sinks::util::encoding`, outside this file):
"applies a configured set of field-projection rules" — keep only
`only_fields` when configured, then drop `except_fields` when configured. -/
structure EncodingRules where
  only_fields : Option (List String)
  except_fields : Option (List String)
deriving Repr

/-- Modelled from the spec: applying the field-projection rules to an
event's field map. -/
def applyRules (rules : EncodingRules) (fields : List (String × Json)) :
    List (String × Json) :=
  let kept :=
    match rules.only_fields with
    | some keep => fields.filter (fun p => keep.contains p.1)
    | Option.none => fields
  match rules.except_fields with
  | some excl => kept.filter (fun p => !(excl.contains p.1))
  | Option.none => kept

/-- Event metadata; the sink reads `metadata().datadog_api_key()` from it. -/
structure EventMetadata where
  datadog_api_key : Option String
deriving Repr

/-- A log event: a field map plus metadata (the sink's input type is
`DataType::Log`, so events are log events throughout). -/
structure LogEvent where
  fields : List (String × Json)
  metadata : EventMetadata
deriving Repr

/-- `Compression` (`sinks::util`): no compression, or gzip with an optional
level. -/
inductive Compression where
  | none : Compression
  | gzip : Option Nat → Compression
deriving Repr

/-- The sink configuration fields the claims depend on (`DatadogLogsConfig`);
`tls`, `batch` and `request` plumbing carries no claim and is omitted. -/
structure DatadogLogsConfig where
  endpoint : Option String
  site : Option String
  api_key : String
  encoding : EncodingRules
  compression : Option Compression
deriving Repr

/-- A built HTTP request (`http::Request<Vec<u8>>`): method, URI, headers in
insertion order, body bytes. -/
structure WireRequest where
  method : String
  uri : String
  headers : List (String × String)
  body : List Nat
deriving Repr

/-- First header value with the given name, in insertion order. -/
def WireRequest.findHeader (r : WireRequest) (name : String) : Option String :=
  (r.headers.find? (fun p => p.1 == name)).map Prod.snd

/-- `DatadogLogsConfig::get_uri`: explicit endpoint, else site-derived URI,
else the region default (`Eu`, or `Us` when absent). -/
inductive Region where
  | us : Region
  | eu : Region
deriving Repr

/-- URI resolution of `DatadogLogsConfig::get_uri` (the deprecated `region`
option is threaded separately to keep the config structure small). -/
def get_uri (endpoint : Option String) (site : Option String)
    (region : Option Region) : String :=
  ((endpoint).orElse (fun _ =>
      site.map (fun s => "https://http-intake.logs." ++ s ++ "/v1/input"))).getD
    (match region with
     | some Region.eu => "https://http-intake.logs.datadoghq.eu/v1/input"
     | _ => "https://http-intake.logs.datadoghq.com/v1/input")

/-- `DatadogLogsJsonService::encode`: rename the schema message, timestamp
and host fields to `message`, `date` and `host`, apply the encoding rules,
read the partition key from metadata falling back to the configured
`api_key`, and serialize the remaining record. Returns the pair that the
source wraps as `EncodedEvent<PartitionInnerBuffer<Value, String>>`. -/
def DatadogLogsJsonService.encode (schema : LogSchema)
    (config : DatadogLogsConfig) (event : LogEvent) :
    Option (Json × String) :=
  let log := event.fields
  let log :=
    match lookupField log schema.message_key with
    | some message => insertField (eraseField log schema.message_key) "message" message
    | Option.none => log
  let log :=
    match lookupField log schema.timestamp_key with
    | some timestamp => insertField (eraseField log schema.timestamp_key) "date" timestamp
    | Option.none => log
  let log :=
    match lookupField log schema.host_key with
    | some host => insertField (eraseField log schema.host_key) "host" host
    | Option.none => log
  let log := applyRules config.encoding log
  let api_key := event.metadata.datadog_api_key.getD config.api_key
  let json_event := Json.obj log
  some (json_event, api_key)

/-- `LogEvent::remove` followed by `LogEvent::insert` under a new key — the
"move a well-known field" step, written the way the spec describes it. -/
def moveField (fields : List (String × Json)) (src dst : String) :
    List (String × Json) :=
  match lookupField fields src with
  | some v => insertField (eraseField fields src) dst v
  | Option.none => fields

/-- The spec's description of the structured-mode rename: the schema message
field moves to `message`, then the schema timestamp field to `date`, then
the schema host field to `host`. -/
def renameForDatadog (schema : LogSchema) (fields : List (String × Json)) :
    List (String × Json) :=
  moveField (moveField (moveField fields schema.message_key "message")
      schema.timestamp_key "date")
    schema.host_key "host"

/-- Modelled from the spec: `encode_event` (`sinks::util`, outside this
file) in text mode — "serializes the event to a line of text (terminated by
a newline) using the same field-projection rules", and "Returns `None` if
the configured encoding produces an empty result". The line is the event's
message field rendered as text. -/
def encode_event (schema : LogSchema) (rules : EncodingRules)
    (event : LogEvent) : Option (List Nat) :=
  let fields := applyRules rules event.fields
  let line :=
    match lookupField fields schema.message_key with
    | some (Json.str s) => s
    | _ => ""
  if line = "" then none else some (strBytes (line ++ "\n"))

/-- `DatadogLogsTextService::encode`: read the partition key from metadata
falling back to the configured `api_key`, then pair the `encode_event`
payload (when any) with that key. -/
def DatadogLogsTextService.encode (schema : LogSchema)
    (config : DatadogLogsConfig) (event : LogEvent) :
    Option (List Nat × String) :=
  let api_key := event.metadata.datadog_api_key.getD config.api_key
  (encode_event schema config.encoding event).map (fun e => (e, api_key))

/-- One bit step of the reflected CRC-32 (polynomial `0xEDB88320`). -/
def crc32Bit (c : Nat) : Nat :=
  if c % 2 = 1 then (c / 2) ^^^ 0xEDB88320 else c / 2

/-- CRC-32 update by one input byte. -/
def crc32Byte (c : Nat) (b : Nat) : Nat :=
  crc32Bit^[8] (c ^^^ (b % 256))

/-- CRC-32 of a byte sequence, as the gzip trailer records it. -/
def crc32 (data : List Nat) : Nat :=
  (data.foldl crc32Byte 0xFFFFFFFF) ^^^ 0xFFFFFFFF

/-- A 32-bit value in little-endian byte order. -/
def le32 (n : Nat) : List Nat :=
  [n % 256, n / 256 % 256, n / 2 ^ 16 % 256, n / 2 ^ 24 % 256]

/-- Model of flate2's DEFLATE stream (external crate): the payload is cut
into stored (type-0) blocks of at most 65535 bytes, each prefixed by a
final-block flag, the 16-bit little-endian length, and its one's
complement. flate2's compressed blocks differ byte-for-byte, but stored
blocks are a valid DEFLATE stream with the same lossless round-trip
contract, which is what the claims quantify over. -/
def deflateStored (body : List Nat) : List Nat :=
  if h : body.length ≤ 65535 then
    let l0 := body.length % 256
    let l1 := body.length / 256
    1 :: l0 :: l1 :: (l0 ^^^ 255) :: (l1 ^^^ 255) :: body
  else
    0 :: 255 :: 255 :: 0 :: 0 ::
      (body.take 65535 ++ deflateStored (body.drop 65535))
termination_by body.length
decreasing_by
  simp only [List.length_drop]
  omega

/-- Inverse of `deflateStored`: parse stored blocks until the final one,
returning the decoded payload and the bytes that trail the final block. -/
def inflateStored (input : List Nat) : Option (List Nat × List Nat) :=
  match input with
  | bfinal :: l0 :: l1 :: n0 :: n1 :: rest =>
    let len := l0 + 256 * l1
    if n0 = l0 ^^^ 255 ∧ n1 = l1 ^^^ 255 ∧ len ≤ rest.length then
      if bfinal = 1 then some (rest.take len, rest.drop len)
      else
        match inflateStored (rest.drop len) with
        | some (d, t) => some (rest.take len ++ d, t)
        | Option.none => none
    else none
  | _ => none
termination_by input.length
decreasing_by
  simp only [List.length_drop]
  simp only [List.length_cons]
  omega

/-- The 10-byte gzip member header. flate2 writes magic `1f 8b`, method 8,
empty flags and mtime; the level byte records the requested compression
level in the XFL position so the level is observable in the model. -/
def gzipHeader (level : Nat) : List Nat :=
  [31, 139, 8, 0, 0, 0, 0, 0, level % 256, 255]

/-- Model of `GzEncoder::write_all` + `finish` (flate2, external crate):
header, DEFLATE stream, then CRC-32 and input length mod 2^32, both
little-endian. -/
def gzipCompress (level : Nat) (body : List Nat) : List Nat :=
  gzipHeader level ++ deflateStored body ++
    le32 (crc32 body) ++ le32 (body.length % 2 ^ 32)

/-- Model of gzip decompression with the same codec: parse the header,
inflate the DEFLATE stream, and check the trailer. -/
def gzipDecompress (input : List Nat) : Option (List Nat) :=
  match input with
  | 31 :: 139 :: 8 :: _flg :: _t0 :: _t1 :: _t2 :: _t3 :: _xfl :: _os :: rest =>
    match inflateStored rest with
    | some (data, trailing) =>
        if trailing = le32 (crc32 data) ++ le32 (data.length % 2 ^ 32) then
          some data
        else none
    | Option.none => none
  | _ => none

/-- `DatadogLogsConfig::build_request`: set `Content-Type` and `DD-API-KEY`,
apply the configured compression (`Gzip(None)` when the option is absent;
gzip level defaults to 6 and adds `Content-Encoding: gzip`), then set
`Content-Length` to the final body length. -/
def DatadogLogsConfig.build_request (config : DatadogLogsConfig)
    (uri api_key content_type : String) (body : List Nat) : WireRequest :=
  let headers := [("Content-Type", content_type), ("DD-API-KEY", api_key)]
  let compression := config.compression.getD (Compression.gzip Option.none)
  let hb :=
    match compression with
    | Compression.none => (headers, body)
    | Compression.gzip level =>
        let level := level.getD 6
        (headers ++ [("Content-Encoding", "gzip")], gzipCompress level body)
  ⟨"POST", uri, hb.1 ++ [("Content-Length", toString hb.2.length)], hb.2⟩

/-- Model of `serde_json::to_vec` on a `Vec<Box<RawValue>>` (external
crate): each raw value is emitted verbatim, separated by commas, inside a
single pair of brackets. Written element by element the way the serializer
emits it. -/
def rawJsonArrayAux : List String → String
  | [] => ""
  | [f] => f
  | f :: rest => f ++ "," ++ rawJsonArrayAux rest

/-- The serialized JSON-array body for a batch of raw-value fragments. -/
def rawJsonArray (frags : List String) : String :=
  "[" ++ rawJsonArrayAux frags ++ "]"

/-- `DatadogLogsJsonService::build_request`: split the partition buffer into
fragments and key, serialize the fragments as one JSON array, and hand the
body to `DatadogLogsConfig::build_request` with `application/json`. -/
def DatadogLogsJsonService.build_request (config : DatadogLogsConfig)
    (uri : String) (events : List String × String) : WireRequest :=
  let (events, api_key) := events
  let body := strBytes (rawJsonArray events)
  config.build_request uri api_key "application/json" body

/-- `DatadogLogsTextService::build_request`: split the partition buffer into
fragments and key, flatten the fragments' bytes in order, and hand the body
to `DatadogLogsConfig::build_request` with `text/plain`. -/
def DatadogLogsTextService.build_request (config : DatadogLogsConfig)
    (uri : String) (events : List (List Nat) × String) : WireRequest :=
  let (events, api_key) := events
  let body := events.flatten
  config.build_request uri api_key "text/plain" body

/-- The spec's flat-mode body: "concatenates fragment byte sequences in
arrival order (no separator beyond what each fragment already carries)". -/
def concatFragments : List (List Nat) → List Nat
  | [] => []
  | f :: rest => f ++ concatFragments rest

/-- Modelled from the spec: the per-partition routing of the partitioned
batch sink (`PartitionBatchSink`/`PartitionBuffer`, outside this file) —
append the fragment to the live buffer for its key, creating the buffer on
first use. -/
def addToBuffer {F : Type} :
    List (String × List F) → String → F → List (String × List F)
  | [], k, f => [(k, [f])]
  | (k', fs) :: rest, k, f =>
      if k' = k then (k', fs ++ [f]) :: rest
      else (k', fs) :: addToBuffer rest k f

/-- Modelled from the spec: routing a whole stream of keyed fragments into
per-partition buffers, in arrival order. -/
def routeStream {F : Type} (stream : List (String × F)) :
    List (String × List F) :=
  stream.foldl (fun bufs kf => addToBuffer bufs kf.1 kf.2) []

/-- `healthcheck` response handling: 200 is healthy; 401 parses the body as
JSON (`parsed` stands for `serde_json::from_slice` on the body bytes, with
the serde error message on failure, which `?` propagates) and reads its
`error` field, falling back to the fixed message; any other status surfaces
the status code and the raw body text. -/
def healthcheckResponse (status : Nat) (rawBody : String)
    (parsed : Except String Json) : Except String Unit :=
  if status = 200 then Except.ok ()
  else if status = 401 then
    match parsed with
    | Except.error e => Except.error e
    | Except.ok json =>
        Except.error
          ((((json.asObject.bind (fun o => jsonGet o "error")).bind
              Json.asString).getD "Token is not valid, 401 returned."))
  else
    Except.error
      ("Server returned unexpected error status: " ++ toString status ++
        " body: " ++ rawBody)

/-! Helper lemmas. -/

/-- Inflating a stored-block DEFLATE stream recovers the payload and leaves
the trailing bytes untouched. -/
theorem inflateStored_deflateStored (b t : List Nat) :
    inflateStored (deflateStored b ++ t) = some (b, t) := by
  induction b using deflateStored.induct with
  | case1 b h =>
    rw [deflateStored, dif_pos h]
    rw [inflateStored.eq_def]
    have hL : b.length % 256 + 256 * (b.length / 256) = b.length :=
      Nat.mod_add_div b.length 256
    simp only [List.cons_append]
    rw [if_pos ⟨trivial, trivial, by rw [hL]; simp [List.length_append]⟩]
    rw [hL, List.take_left, List.drop_left]
    simp
  | case2 b h ih =>
    rw [deflateStored, dif_neg h]
    rw [inflateStored.eq_def]
    simp only [List.cons_append]
    have hlen : (b.take 65535).length = 65535 := by
      simp [List.length_take]
      omega
    have hrest : ((b.take 65535 ++ deflateStored (b.drop 65535)) ++ t)
        = b.take 65535 ++ (deflateStored (b.drop 65535) ++ t) := by
      simp [List.append_assoc]
    rw [hrest]
    have h255 : (255 : Nat) + 256 * 255 = 65535 := by norm_num
    have htake : ∀ (p X : List Nat), p.length = 65535 →
        (p ++ X).take 65535 = p := by
      intro p X hp
      rw [← hp]
      exact List.take_left p X
    have hdrop : ∀ (p X : List Nat), p.length = 65535 →
        (p ++ X).drop 65535 = X := by
      intro p X hp
      rw [← hp]
      exact List.drop_left p X
    rw [if_pos ⟨by decide, by decide, by
      rw [h255]; simp [List.length_append, hlen]⟩]
    rw [if_neg (by decide)]
    rw [h255]
    rw [htake _ _ hlen, hdrop _ _ hlen, ih]
    simp [List.take_append_drop]

/-- Decompressing with the modelled gzip codec inverts compression at any
level. -/
theorem gzipDecompress_gzipCompress (level : Nat) (body : List Nat) :
    gzipDecompress (gzipCompress level body) = some body := by
  rw [gzipCompress, gzipHeader]
  simp only [List.append_assoc, List.cons_append, List.nil_append]
  rw [gzipDecompress]
  rw [inflateStored_deflateStored]
  simp

/-- A key is among an association list's keys exactly when it has an
entry. -/
theorem mem_keys_iff {F : Type} (l : List (String × F)) (k : String) :
    k ∈ l.map Prod.fst ↔ ∃ v, (k, v) ∈ l := by
  constructor
  · intro h
    rcases List.mem_map.mp h with ⟨⟨a, b⟩, hm, he⟩
    exact ⟨b, by simpa [← he] using hm⟩
  · rintro ⟨v, hv⟩
    exact List.mem_map.mpr ⟨(k, v), hv, rfl⟩

/-- Appending a fragment keeps the buffer keys, adding the key only when it
is new. -/
theorem addToBuffer_keys {F : Type} (bufs : List (String × List F))
    (k : String) (f : F) :
    (addToBuffer bufs k f).map Prod.fst =
      if k ∈ bufs.map Prod.fst then bufs.map Prod.fst
      else bufs.map Prod.fst ++ [k] := by
  induction bufs with
  | nil => simp [addToBuffer]
  | cons b rest ih =>
    obtain ⟨k', fs⟩ := b
    by_cases hk : k' = k
    · subst hk
      simp [addToBuffer]
    · simp only [addToBuffer, if_neg hk, List.map_cons]
      rw [ih]
      by_cases hmem : k ∈ rest.map Prod.fst
      · simp [hmem, hk, Ne.symm hk]
      · simp [hmem, hk, Ne.symm hk]

/-- Where an entry of `addToBuffer bufs k₀ f₀` can come from, when the
buffer keys are distinct. -/
theorem addToBuffer_mem_mp {F : Type} {bufs : List (String × List F)}
    {k₀ k : String} {f₀ : F} {fs : List F}
    (hnd : (bufs.map Prod.fst).Nodup)
    (h : (k, fs) ∈ addToBuffer bufs k₀ f₀) :
    (k ≠ k₀ ∧ (k, fs) ∈ bufs)
    ∨ (k = k₀ ∧ ∃ fs₀, (k₀, fs₀) ∈ bufs ∧ fs = fs₀ ++ [f₀])
    ∨ (k = k₀ ∧ k₀ ∉ bufs.map Prod.fst ∧ fs = [f₀]) := by
  induction bufs with
  | nil =>
    simp only [addToBuffer, List.mem_singleton, Prod.mk.injEq] at h
    exact Or.inr (Or.inr ⟨h.1, by simp, h.2⟩)
  | cons b rest ih =>
    obtain ⟨k', fs'⟩ := b
    simp only [List.map_cons, List.nodup_cons] at hnd
    by_cases hk : k' = k₀
    · subst hk
      simp only [addToBuffer, if_pos rfl] at h
      rcases List.mem_cons.mp h with h1 | h1
      · rw [Prod.mk.injEq] at h1
        exact Or.inr (Or.inl ⟨h1.1, fs', List.mem_cons_self _ _, h1.2⟩)
      · by_cases hke : k = k'
        · exact absurd ((mem_keys_iff rest k).mpr ⟨fs, h1⟩) (hke ▸ hnd.1)
        · exact Or.inl ⟨hke, List.mem_cons_of_mem _ h1⟩
    · simp only [addToBuffer, if_neg hk] at h
      rcases List.mem_cons.mp h with h1 | h1
      · rw [Prod.mk.injEq] at h1
        exact Or.inl ⟨h1.1 ▸ hk, List.mem_cons.mpr (Or.inl (by rw [h1.1, h1.2]))⟩
      · rcases ih hnd.2 h1 with h2 | ⟨he, fs₀, hm, hfs⟩ | ⟨he, hnm, hfs⟩
        · exact Or.inl ⟨h2.1, List.mem_cons_of_mem _ h2.2⟩
        · exact Or.inr (Or.inl ⟨he, fs₀, List.mem_cons_of_mem _ hm, hfs⟩)
        · refine Or.inr (Or.inr ⟨he, ?_, hfs⟩)
          simp only [List.map_cons, List.mem_cons]
          rintro (h3 | h3)
          · exact hk h3.symm
          · exact hnm h3

/-- Folding a keyed stream into partition buffers keeps the keys distinct,
and every resulting buffer holds its starting content followed by exactly
the stream fragments carrying its key, in arrival order. -/
theorem routeStream_go {F : Type} (stream : List (String × F)) :
    ∀ (bufs : List (String × List F)),
      (bufs.map Prod.fst).Nodup →
      ((List.foldl (fun bs kf => addToBuffer bs kf.1 kf.2) bufs stream).map
          Prod.fst).Nodup
      ∧ ∀ k fs,
          (k, fs) ∈ List.foldl (fun bs kf => addToBuffer bs kf.1 kf.2) bufs stream →
          (∃ fs₀, (k, fs₀) ∈ bufs ∧
              fs = fs₀ ++ (stream.filter (fun p => p.1 == k)).map Prod.snd)
          ∨ (k ∉ bufs.map Prod.fst ∧
              fs = (stream.filter (fun p => p.1 == k)).map Prod.snd) := by
  induction stream with
  | nil =>
    intro bufs hnd
    refine ⟨hnd, ?_⟩
    intro k fs h
    exact Or.inl ⟨fs, h, by simp⟩
  | cons p rest ih =>
    obtain ⟨k₀, f₀⟩ := p
    intro bufs hnd
    have hnd' : ((addToBuffer bufs k₀ f₀).map Prod.fst).Nodup := by
      rw [addToBuffer_keys]
      by_cases hmem : k₀ ∈ bufs.map Prod.fst
      · simpa [hmem] using hnd
      · simp [hmem, List.nodup_append, hnd]
    obtain ⟨ihnd, ihmem⟩ := ih (addToBuffer bufs k₀ f₀) hnd'
    refine ⟨by simpa [List.foldl_cons] using ihnd, ?_⟩
    intro k fs h
    simp only [List.foldl_cons] at h
    rcases ihmem k fs h with ⟨fs₁, hm', hfs⟩ | ⟨hnm', hfs⟩
    · rcases addToBuffer_mem_mp hnd hm' with
        ⟨hne, hm⟩ | ⟨heq, fs₀, hm, hfs₁⟩ | ⟨heq, hnm, hfs₁⟩
      · refine Or.inl ⟨fs₁, hm, ?_⟩
        have : (k₀ == k) = false := by
          simp [Ne.symm hne]
        simp [List.filter_cons, this, hfs]
      · subst heq
        refine Or.inl ⟨fs₀, hm, ?_⟩
        simp [List.filter_cons, hfs, hfs₁, List.append_assoc]
      · subst heq
        refine Or.inr ⟨hnm, ?_⟩
        simp [List.filter_cons, hfs, hfs₁]
    · rw [addToBuffer_keys] at hnm'
      by_cases hmem : k₀ ∈ bufs.map Prod.fst
      · rw [if_pos hmem] at hnm'
        have hne : k ≠ k₀ := fun he => hnm' (he ▸ hmem)
        refine Or.inr ⟨hnm', ?_⟩
        have : (k₀ == k) = false := by simp [Ne.symm hne]
        simp [List.filter_cons, this, hfs]
      · rw [if_neg hmem] at hnm'
        simp only [List.mem_append, List.mem_singleton, not_or] at hnm'
        have : (k₀ == k) = false := by
          simp only [beq_eq_false_iff_ne, ne_eq]
          exact fun he => hnm'.2 he.symm
        refine Or.inr ⟨hnm'.1, ?_⟩
        simp [List.filter_cons, this, hfs]

/-- Prepending onto the head fragment commutes with comma-joining. -/
theorem rawJsonArrayAux_append_head (t : List String) (x y : String) :
    rawJsonArrayAux ((x ++ y) :: t) = x ++ rawJsonArrayAux (y :: t) := by
  cases t with
  | nil => simp [rawJsonArrayAux]
  | cons c u => simp [rawJsonArrayAux, String.append_assoc]

/-- The element-by-element serializer agrees with `String.intercalate`'s
accumulator loop. -/
theorem rawJsonArrayAux_eq_go (l : List String) :
    ∀ a : String, rawJsonArrayAux (a :: l) = String.intercalate.go a "," l := by
  induction l with
  | nil =>
    intro a
    rfl
  | cons b t ih =>
    intro a
    show rawJsonArrayAux (a :: b :: t) = String.intercalate.go (a ++ "," ++ b) "," t
    rw [← ih (a ++ "," ++ b)]
    show a ++ "," ++ rawJsonArrayAux (b :: t) = _
    rw [rawJsonArrayAux_append_head t (a ++ ",") b]

/-- The serialized batch body is one bracketed, comma-separated array of
the fragments. -/
theorem rawJsonArray_intercalate (frags : List String) :
    rawJsonArray frags = "[" ++ String.intercalate "," frags ++ "]" := by
  cases frags with
  | nil => rfl
  | cons a l =>
    show "[" ++ rawJsonArrayAux (a :: l) ++ "]" = _
    rw [rawJsonArrayAux_eq_go l a]
    rfl

/-- With compression disabled, `build_request` passes the body through and
sets exactly the content-type, key, and length headers. -/
theorem build_request_body_none (ep st : Option String) (ak : String)
    (enc : EncodingRules) (uri key ct : String) (body : List Nat) :
    DatadogLogsConfig.build_request ⟨ep, st, ak, enc, some Compression.none⟩
        uri key ct body =
      ⟨"POST", uri,
        [("Content-Type", ct), ("DD-API-KEY", key),
          ("Content-Length", toString body.length)], body⟩ := by
  rfl

/-- With gzip compression, `build_request` compresses at the configured
level (6 when unspecified) and adds the `Content-Encoding` header. -/
theorem build_request_body_gzip (ep st : Option String) (ak : String)
    (enc : EncodingRules) (lvl : Option Nat) (uri key ct : String)
    (body : List Nat) :
    DatadogLogsConfig.build_request ⟨ep, st, ak, enc,
        some (Compression.gzip lvl)⟩ uri key ct body =
      ⟨"POST", uri,
        [("Content-Type", ct), ("DD-API-KEY", key),
          ("Content-Encoding", "gzip"),
          ("Content-Length",
            toString (gzipCompress (lvl.getD 6) body).length)],
        gzipCompress (lvl.getD 6) body⟩ := by
  rfl

/-- With the compression option absent, `build_request` behaves as
`Gzip(None)`: gzip at level 6. -/
theorem build_request_body_default (ep st : Option String) (ak : String)
    (enc : EncodingRules) (uri key ct : String) (body : List Nat) :
    DatadogLogsConfig.build_request ⟨ep, st, ak, enc, Option.none⟩
        uri key ct body =
      ⟨"POST", uri,
        [("Content-Type", ct), ("DD-API-KEY", key),
          ("Content-Encoding", "gzip"),
          ("Content-Length", toString (gzipCompress 6 body).length)],
        gzipCompress 6 body⟩ := by
  rfl

/-- Every request built by `build_request` carries the given content type,
the given API key, and a `Content-Length` equal to its final body
length. -/
theorem build_request_headers (config : DatadogLogsConfig)
    (uri key ct : String) (body : List Nat) :
    (config.build_request uri key ct body).findHeader "Content-Type" = some ct
    ∧ (config.build_request uri key ct body).findHeader "DD-API-KEY" = some key
    ∧ (config.build_request uri key ct body).findHeader "Content-Length" =
        some (toString (config.build_request uri key ct body).body.length) := by
  rw [DatadogLogsConfig.build_request]
  rcases config.compression.getD (Compression.gzip Option.none) with _ | lvl <;>
    simp [WireRequest.findHeader, List.find?]

/-- The body built by `build_request` does not depend on the API key. -/
theorem build_request_body_key_independent (config : DatadogLogsConfig)
    (uri k k' ct : String) (body : List Nat) :
    (config.build_request uri k ct body).body =
      (config.build_request uri k' ct body).body := by
  rw [DatadogLogsConfig.build_request, DatadogLogsConfig.build_request]
  rcases hc : config.compression.getD (Compression.gzip Option.none) with _ | lvl <;>
    simp [hc]

/-- Flattening the fragment list is the spec's arrival-order
concatenation. -/
theorem flatten_eq_concatFragments (frags : List (List Nat)) :
    frags.flatten = concatFragments frags := by
  induction frags with
  | nil => rfl
  | cons f r ih => simp [concatFragments, ih]

/-! Claim theorems. -/

/-- Claim C1: both encoders attach as partition key the per-event Datadog
API key from the event's metadata when present, and otherwise the
configured `api_key`; and routing keyed fragments into partition buffers
yields buffers with pairwise-distinct keys, each holding exactly the
fragments that carry its key, in arrival order — so a batch never mixes
keys and same-key fragments share a buffer. -/
theorem c1_partition_key_and_single_key_batches :
    (∀ (schema : LogSchema) (config : DatadogLogsConfig) (event : LogEvent),
        (DatadogLogsJsonService.encode schema config event).map Prod.snd =
          some (event.metadata.datadog_api_key.getD config.api_key))
    ∧ (∀ (schema : LogSchema) (config : DatadogLogsConfig) (event : LogEvent)
        (frag : List Nat) (key : String),
        DatadogLogsTextService.encode schema config event = some (frag, key) →
          key = event.metadata.datadog_api_key.getD config.api_key)
    ∧ (∀ (F : Type) (stream : List (String × F)),
        ((routeStream stream).map Prod.fst).Nodup
        ∧ ∀ (k : String) (fs : List F), (k, fs) ∈ routeStream stream →
            fs = (stream.filter (fun p => p.1 == k)).map Prod.snd) := by
  refine ⟨?_, ?_, ?_⟩
  · intro schema config event
    rfl
  · intro schema config event frag key h
    simp only [DatadogLogsTextService.encode] at h
    cases he : encode_event schema config.encoding event with
    | none =>
      rw [he] at h
      simp at h
    | some e =>
      rw [he] at h
      injection h with h1
      rw [Prod.mk.injEq] at h1
      exact h1.2.symm
  · intro F stream
    obtain ⟨h1, h2⟩ := routeStream_go stream [] (by simp)
    refine ⟨h1, ?_⟩
    intro k fs hmem
    rcases h2 k fs hmem with ⟨fs₀, hm, _⟩ | ⟨_, hfs⟩
    · cases hm
    · exact hfs

/-- Claim C1 witness: a metadata key `pkc` wins over the configured
`atoken`, and the `pkc` buffer of a concrete routed stream holds exactly
the `pkc` fragments in order. -/
theorem c1_witness :
    (("pkc" : String) =
      (LogEvent.mk [("message", Json.str "mow")]
          ⟨some "pkc"⟩).metadata.datadog_api_key.getD "atoken")
    ∧ (([1, 3] : List Nat) =
      (([("pkc", 1), ("vvo", 2), ("pkc", 3)].filter
          (fun p => p.1 == "pkc")).map Prod.snd)) := by
  constructor
  · exact c1_partition_key_and_single_key_batches.2.1 defaultLogSchema
      ⟨Option.none, Option.none, "atoken", ⟨Option.none, Option.none⟩,
        some Compression.none⟩
      (LogEvent.mk [("message", Json.str "mow")] ⟨some "pkc"⟩)
      (strBytes ("mow" ++ "\n")) "pkc" (by decide)
  · exact (c1_partition_key_and_single_key_batches.2.2 Nat
      [("pkc", 1), ("vvo", 2), ("pkc", 3)]).2 "pkc" [1, 3] (by decide)

/-- Claim C2 counterexample: on a 401 whose body is not valid JSON (here the
empty body, which serde rejects), the healthcheck's reason is the
propagated parse error, not the claim's default message — the claim's
"error field if present, otherwise a default message" does not hold on
unparseable bodies. -/
theorem c2_counterexample :
    healthcheckResponse 401 ""
        (Except.error "EOF while parsing a value at line 1 column 0") ≠
      Except.error "Token is not valid, 401 returned." := by
  intro h
  have h1 : (Except.error "EOF while parsing a value at line 1 column 0" :
      Except String Unit) = Except.error "Token is not valid, 401 returned." := h
  injection h1 with h2
  exact absurd h2 (by decide)

/-- Claim C2 (amended): the healthcheck is healthy exactly on status 200;
on 401 with a body that parses as JSON, the reason is the body's `error`
string field when present and the fixed default message otherwise, while a
401 body that fails to parse surfaces the JSON parse error; any other
status reports the status code together with the raw body text. -/
theorem c2_healthcheck_response :
    ∀ (status : Nat) (rawBody : String) (parsed : Except String Json),
      (healthcheckResponse status rawBody parsed = Except.ok () ↔ status = 200)
      ∧ (status = 401 → ∀ j, parsed = Except.ok j →
          healthcheckResponse status rawBody parsed =
            Except.error
              (((j.asObject.bind (fun o => jsonGet o "error")).bind
                  Json.asString).getD "Token is not valid, 401 returned."))
      ∧ (status = 401 → ∀ e, parsed = Except.error e →
          healthcheckResponse status rawBody parsed = Except.error e)
      ∧ (status ≠ 200 → status ≠ 401 →
          healthcheckResponse status rawBody parsed =
            Except.error ("Server returned unexpected error status: " ++
              toString status ++ " body: " ++ rawBody)) := by
  intro status rawBody parsed
  refine ⟨⟨?_, ?_⟩, ?_, ?_, ?_⟩
  · intro h
    by_contra hne
    rw [healthcheckResponse.eq_def, if_neg hne] at h
    by_cases h4 : status = 401
    · rw [if_pos h4] at h
      cases parsed with
      | error e => simp at h
      | ok j => simp at h
    · rw [if_neg h4] at h
      simp at h
  · intro h
    rw [healthcheckResponse.eq_def, if_pos h]
  · intro h4 j hj
    subst h4
    subst hj
    rfl
  · intro h4 e he
    subst h4
    subst he
    rfl
  · intro h2 h4
    rw [healthcheckResponse.eq_def, if_neg h2, if_neg h4]

/-- Claim C2 witness: a 401 whose JSON body is an object with
`error = "bad key"` yields exactly that reason. -/
theorem c2_witness :
    healthcheckResponse 401 "irrelevant"
        (Except.ok (Json.obj [("error", Json.str "bad key")])) =
      Except.error "bad key" := by
  have h := (c2_healthcheck_response 401 "irrelevant"
      (Except.ok (Json.obj [("error", Json.str "bad key")]))).2.1 rfl
      (Json.obj [("error", Json.str "bad key")]) rfl
  exact h.trans rfl

/-- Claim C3: the structured batch body serializes the fragments as one
JSON array (bracketed, comma-separated) and is independent of the
partition key, which therefore never enters the body; the flat batch body
is the arrival-order concatenation of the fragments' bytes with no
separator. -/
theorem c3_flushed_batch_bodies :
    (∀ frags : List String,
        rawJsonArray frags = "[" ++ String.intercalate "," frags ++ "]")
    ∧ (∀ (config : DatadogLogsConfig) (uri : String) (frags : List String)
          (k k' : String),
        (DatadogLogsJsonService.build_request config uri (frags, k)).body =
          (DatadogLogsJsonService.build_request config uri (frags, k')).body)
    ∧ (∀ (ep st : Option String) (ak : String) (enc : EncodingRules)
          (uri : String) (frags : List String) (k : String),
        (DatadogLogsJsonService.build_request
            ⟨ep, st, ak, enc, some Compression.none⟩ uri (frags, k)).body =
          strBytes (rawJsonArray frags))
    ∧ (∀ (ep st : Option String) (ak : String) (enc : EncodingRules)
          (uri : String) (frags : List (List Nat)) (k : String),
        (DatadogLogsTextService.build_request
            ⟨ep, st, ak, enc, some Compression.none⟩ uri (frags, k)).body =
          concatFragments frags) := by
  refine ⟨rawJsonArray_intercalate, ?_, ?_, ?_⟩
  · intro config uri frags k k'
    exact build_request_body_key_independent config uri k k' "application/json"
      (strBytes (rawJsonArray frags))
  · intro ep st ak enc uri frags k
    rw [show DatadogLogsJsonService.build_request
        ⟨ep, st, ak, enc, some Compression.none⟩ uri (frags, k) =
      DatadogLogsConfig.build_request ⟨ep, st, ak, enc, some Compression.none⟩
        uri k "application/json" (strBytes (rawJsonArray frags)) from rfl]
    rw [build_request_body_none]
  · intro ep st ak enc uri frags k
    rw [show DatadogLogsTextService.build_request
        ⟨ep, st, ak, enc, some Compression.none⟩ uri (frags, k) =
      DatadogLogsConfig.build_request ⟨ep, st, ak, enc, some Compression.none⟩
        uri k "text/plain" frags.flatten from rfl]
    rw [build_request_body_none]
    exact flatten_eq_concatFragments frags

/-- Claim C4: every built wire request carries `Content-Type`
`application/json` in structured mode and `text/plain` in flat mode, the
`DD-API-KEY` header equal to the batch's partition key, and a
`Content-Length` equal to the final (post-compression) body length. -/
theorem c4_wire_request_headers :
    ∀ (config : DatadogLogsConfig) (uri : String) (jfrags : List String)
      (tfrags : List (List Nat)) (key : String),
      ((DatadogLogsJsonService.build_request config uri (jfrags, key)).findHeader
            "Content-Type" = some "application/json"
        ∧ (DatadogLogsJsonService.build_request config uri (jfrags, key)).findHeader
            "DD-API-KEY" = some key
        ∧ (DatadogLogsJsonService.build_request config uri (jfrags, key)).findHeader
            "Content-Length" =
          some (toString
            (DatadogLogsJsonService.build_request config uri (jfrags, key)).body.length))
      ∧ ((DatadogLogsTextService.build_request config uri (tfrags, key)).findHeader
            "Content-Type" = some "text/plain"
        ∧ (DatadogLogsTextService.build_request config uri (tfrags, key)).findHeader
            "DD-API-KEY" = some key
        ∧ (DatadogLogsTextService.build_request config uri (tfrags, key)).findHeader
            "Content-Length" =
          some (toString
            (DatadogLogsTextService.build_request config uri (tfrags, key)).body.length)) := by
  intro config uri jfrags tfrags key
  exact ⟨build_request_headers config uri key "application/json"
      (strBytes (rawJsonArray jfrags)),
    build_request_headers config uri key "text/plain" tfrags.flatten⟩

/-- Claim C5: with compression `None` the body passes through unchanged and
no `Content-Encoding` header is set; with `Gzip(level)` the body is
gzip-compressed at the given level, defaulting to 6 when unspecified, and
`Content-Encoding: gzip` is set. -/
theorem c5_compression_modes :
    ∀ (ep st : Option String) (ak : String) (enc : EncodingRules)
      (uri key ct : String) (body : List Nat),
      ((DatadogLogsConfig.build_request ⟨ep, st, ak, enc, some Compression.none⟩
            uri key ct body).body = body
        ∧ (DatadogLogsConfig.build_request ⟨ep, st, ak, enc, some Compression.none⟩
            uri key ct body).findHeader "Content-Encoding" = Option.none)
      ∧ ∀ lvl : Option Nat,
        (DatadogLogsConfig.build_request
            ⟨ep, st, ak, enc, some (Compression.gzip lvl)⟩ uri key ct body).body =
          gzipCompress (lvl.getD 6) body
        ∧ (DatadogLogsConfig.build_request
            ⟨ep, st, ak, enc, some (Compression.gzip lvl)⟩ uri key ct
            body).findHeader "Content-Encoding" = some "gzip" := by
  intro ep st ak enc uri key ct body
  refine ⟨⟨?_, ?_⟩, ?_⟩
  · rw [build_request_body_none]
  · rw [build_request_body_none]
    simp [WireRequest.findHeader, List.find?]
  · intro lvl
    refine ⟨?_, ?_⟩
    · rw [build_request_body_gzip]
    · rw [build_request_body_gzip]
      simp [WireRequest.findHeader, List.find?]

/-- Claim C6: structured encode moves the schema message field to
`message`, the schema timestamp field to `date` and the schema host field
to `host`, then applies the configured field-projection rules, serializes
the remaining record as a structured value, and pairs it with the
metadata-or-default partition key. -/
theorem c6_structured_encode_pipeline :
    ∀ (schema : LogSchema) (config : DatadogLogsConfig) (event : LogEvent),
      DatadogLogsJsonService.encode schema config event =
        some (Json.obj (applyRules config.encoding
            (renameForDatadog schema event.fields)),
          event.metadata.datadog_api_key.getD config.api_key) := by
  intro schema config event
  rfl

/-- Claim C7: for a fixed strategy, encoding is deterministic — equal
events produce equal results in both structured and flat mode. -/
theorem c7_encode_deterministic :
    ∀ (schema : LogSchema) (config : DatadogLogsConfig) (e₁ e₂ : LogEvent),
      e₁ = e₂ →
      DatadogLogsJsonService.encode schema config e₁ =
          DatadogLogsJsonService.encode schema config e₂
      ∧ DatadogLogsTextService.encode schema config e₁ =
          DatadogLogsTextService.encode schema config e₂ := by
  intro schema config e₁ e₂ h
  rw [h]
  exact ⟨rfl, rfl⟩

/-- Claim C7 witness: determinism instantiated at a concrete event. -/
theorem c7_witness :
    DatadogLogsJsonService.encode defaultLogSchema
        ⟨Option.none, Option.none, "atoken", ⟨Option.none, Option.none⟩,
          some Compression.none⟩
        (LogEvent.mk [("message", Json.str "mow")] ⟨some "pkc"⟩) =
      DatadogLogsJsonService.encode defaultLogSchema
        ⟨Option.none, Option.none, "atoken", ⟨Option.none, Option.none⟩,
          some Compression.none⟩
        (LogEvent.mk [("message", Json.str "mow")] ⟨some "pkc"⟩) :=
  (c7_encode_deterministic defaultLogSchema
    ⟨Option.none, Option.none, "atoken", ⟨Option.none, Option.none⟩,
      some Compression.none⟩
    (LogEvent.mk [("message", Json.str "mow")] ⟨some "pkc"⟩)
    (LogEvent.mk [("message", Json.str "mow")] ⟨some "pkc"⟩) rfl).1

/-- Claim C8: the gzip codec round-trips — decompressing a compressed body
recovers it byte-for-byte at every level, in particular for the body of
every gzip-compressed built request. -/
theorem c8_gzip_roundtrip :
    (∀ (level : Nat) (body : List Nat),
        gzipDecompress (gzipCompress level body) = some body)
    ∧ ∀ (ep st : Option String) (ak : String) (enc : EncodingRules)
        (lvl : Option Nat) (uri key ct : String) (body : List Nat),
        gzipDecompress
            ((DatadogLogsConfig.build_request
                ⟨ep, st, ak, enc, some (Compression.gzip lvl)⟩ uri key ct
                body).body) = some body := by
  refine ⟨gzipDecompress_gzipCompress, ?_⟩
  intro ep st ak enc lvl uri key ct body
  rw [build_request_body_gzip]
  exact gzipDecompress_gzipCompress (lvl.getD 6) body

/-- Claim C9: with the compression option absent, the built request is
gzip-compressed at level 6 and carries `Content-Encoding: gzip` — the
default is `Gzip(None)`, not `None`. -/
theorem c9_default_compression_is_gzip :
    ∀ (ep st : Option String) (ak : String) (enc : EncodingRules)
      (uri key ct : String) (body : List Nat),
      (DatadogLogsConfig.build_request ⟨ep, st, ak, enc, Option.none⟩
          uri key ct body).body = gzipCompress 6 body
      ∧ (DatadogLogsConfig.build_request ⟨ep, st, ak, enc, Option.none⟩
          uri key ct body).findHeader "Content-Encoding" = some "gzip" := by
  intro ep st ak enc uri key ct body
  refine ⟨?_, ?_⟩
  · rw [build_request_body_default]
  · rw [build_request_body_default]
    simp [WireRequest.findHeader, List.find?]

/-- Claim C10: structured encode never drops an event — it returns `some`
encoded fragment for every input. -/
theorem c10_structured_encode_total :
    ∀ (schema : LogSchema) (config : DatadogLogsConfig) (event : LogEvent),
      (DatadogLogsJsonService.encode schema config event).isSome = true := by
  intro schema config event
  rfl
